import Mathlib

/-!
Shallow embedding of the `Youtube-audio-transcription` repository.

The embedding covers:
* `src/app/utils/time_utils.py` — `seconds_to_hms`, `hms_to_seconds`,
  `validate_time_format` (namespace `YT.time_utils`);
* the identically named duplicates near the top of `src/main.py`
  (namespace `YT.Main`);
* the segment pipeline `process_audio` and its caller
  `transcribe_audio_source` from `src/main.py`, with the external
  collaborators (`trim_audio`, `run_diarization`, Whisper transcription)
  supplied as oracles in an environment record;
* `answer_with_llm` from `src/app/llm_services.py`, with the language-model
  client call supplied as an oracle.

Python `float` values are modelled as rationals (`ℚ`); Python exceptions as
`Option`/`Except`; Python strings as Lean `String`, with the character-level
work done on `List Char`.
-/

namespace YT

/-- Decimal digit character for a value `d < 10`. -/
def digitChar (d : ℕ) : Char :=
  if d = 0 then '0' else if d = 1 then '1' else if d = 2 then '2'
  else if d = 3 then '3' else if d = 4 then '4' else if d = 5 then '5'
  else if d = 6 then '6' else if d = 7 then '7' else if d = 8 then '8' else '9'

/-- Fuel-driven base-10 rendering; `natDigits` supplies enough fuel. -/
def natDigitsAux : ℕ → ℕ → List Char
  | 0, _ => []
  | fuel + 1, n =>
    if n < 10 then [digitChar n]
    else natDigitsAux fuel (n / 10) ++ [digitChar (n % 10)]

/-- Decimal digit string of a natural number: the embedding of the Python
`str`/`format` rendering of a nonnegative integer. -/
def natDigits (n : ℕ) : List Char := natDigitsAux (n + 1) n

/-- Numeric value of a digit character (`'7' ↦ 7`). -/
def charVal (c : Char) : ℕ := c.toNat - 48

/-- Value of a digit string read left to right. -/
def parseVal (l : List Char) : ℕ := l.foldl (fun a c => 10 * a + charVal c) 0

/-- Embedding of Python `int(s)` restricted to plain digit strings: succeeds
iff `s` is nonempty and all-digits (sign, whitespace and underscore forms are
outside the fragment exercised by this program). -/
def parseNat (l : List Char) : Option ℕ :=
  if !l.isEmpty && l.all Char.isDigit then some (parseVal l) else none

/-- Embedding of Python `float("0." + s)`: succeeds iff `s` is all-digits
(possibly empty), yielding the value of `s` scaled below 1. -/
def parseFrac (l : List Char) : Option ℚ :=
  if l.all Char.isDigit then some ((parseVal l : ℚ) / 10 ^ l.length) else none

/-- Embedding of Python `str.split(sep)` for a one-character separator. -/
def splitOnChar (c : Char) : List Char → List (List Char)
  | [] => [[]]
  | x :: xs =>
    if x = c then [] :: splitOnChar c xs
    else
      match splitOnChar c xs with
      | [] => [[x]]
      | y :: ys => (x :: y) :: ys

/-- Inverse of `splitOnChar`: interleave the separator back. -/
def joinWith (c : Char) : List (List Char) → List Char
  | [] => []
  | [x] => x
  | x :: y :: xs => x ++ c :: joinWith c (y :: xs)

/-- Round to the nearest integer, ties to the even integer: the rounding used
by the Python fixed-point float formatting on exactly representable values. -/
def roundHalfEven (q : ℚ) : ℤ :=
  let n := ⌊q⌋
  if q - n < 1 / 2 then n
  else if 1 / 2 < q - n then n + 1
  else if n % 2 = 0 then n else n + 1

/-- Zero-pad a natural to width 2 (wider numbers keep all their digits):
Python `f"{n:02d}"` for `n ≥ 0`. -/
def pad2 (n : ℕ) : List Char := if n < 10 then '0' :: natDigits n else natDigits n

/-- Zero-pad a natural to width 3: the 3 millisecond digits of `.3f`. -/
def pad3 (n : ℕ) : List Char :=
  if n < 10 then '0' :: '0' :: natDigits n
  else if n < 100 then '0' :: natDigits n
  else natDigits n

/-- Python `f"{i:02d}"` on an `int` (a sign, when present, counts toward the
width, so negative values get no zero padding at width 2). -/
def intPad2 (i : ℤ) : List Char :=
  if i < 0 then '-' :: natDigits i.natAbs else pad2 i.toNat

/-- Python `f"{x:06.3f}"`: fixed-point, 3 fractional digits (rounded, ties to
even), zero-padded to overall width 6. -/
def fmtSecs (x : ℚ) : List Char :=
  let r := roundHalfEven (x * 1000)
  if r < 0 then '-' :: natDigits (r.natAbs / 1000) ++ '.' :: pad3 (r.natAbs % 1000)
  else pad2 (r.toNat / 1000) ++ '.' :: pad3 (r.toNat % 1000)

namespace time_utils

/-- Function `seconds_to_hms` of `src/app/utils/time_utils.py`:
`hours = int(seconds // 3600)`, `minutes = int((seconds % 3600) // 60)`,
`secs = seconds - (hours * 3600 + minutes * 60)`,
returning `f"{hours:02d}:{minutes:02d}:{secs:06.3f}"`. -/
def seconds_to_hms (q : ℚ) : String :=
  let hours : ℤ := ⌊q / 3600⌋
  let minutes : ℤ := ⌊(q - 3600 * (⌊q / 3600⌋ : ℚ)) / 60⌋
  let secs : ℚ := q - (3600 * hours + 60 * minutes)
  String.mk (intPad2 hours ++ ':' :: intPad2 minutes ++ ':' :: fmtSecs secs)

/-- The colon-separated stage of `hms_to_seconds`: `parts = t.split(':')`,
then three components `h*3600+m*60+s+ms`, two components `m*60+s+ms`, and any
other count falls through to `int(parts[0]) + ms`. -/
def timeFromParts (t : List Char) (ms : ℚ) : Option ℚ :=
  match splitOnChar ':' t with
  | [h, m, s] =>
    (parseNat h).bind fun hv =>
      (parseNat m).bind fun mv =>
        (parseNat s).bind fun sv =>
          some (((3600 * hv + 60 * mv + sv : ℕ) : ℚ) + ms)
  | [m, s] =>
    (parseNat m).bind fun mv =>
      (parseNat s).bind fun sv => some (((60 * mv + sv : ℕ) : ℚ) + ms)
  | p :: _ => (parseNat p).map fun pv => (pv : ℚ) + ms
  | [] => none

/-- Function `hms_to_seconds` of `src/app/utils/time_utils.py`: split on `'.'` (no dot:
no fractional part; one dot: `ms = float("0." + tail)`; two or more dots: the
two-target unpacking raises, modelled as `none`), then the colon stage. -/
def hms_to_seconds (s : String) : Option ℚ :=
  match splitOnChar '.' s.data with
  | [t] => timeFromParts t 0
  | [t, msStr] => (parseFrac msStr).bind (timeFromParts t)
  | _ => none

/-- Test for the character class `[0-5]`. -/
def isLowDigit (c : Char) : Bool := '0' ≤ c && c ≤ '5'

/-- The regex fragment `[0-5]?[0-9]` against a whole component. -/
def matchMM : List Char → Bool
  | [d] => d.isDigit
  | [d, e] => isLowDigit d && e.isDigit
  | _ => false

/-- The regex fragment `[0-5][0-9]` against a whole component. -/
def matchSS : List Char → Bool
  | [d, e] => isLowDigit d && e.isDigit
  | _ => false

/-- The regex fragment `[0-9]{1,2}` against a whole component. -/
def matchHH (l : List Char) : Bool :=
  (l.length = 1 || l.length = 2) && l.all Char.isDigit

/-- The time portion of the pattern, after the optional `.mmm` suffix has been
stripped: `([0-9]{1,2}:)?[0-5]?[0-9]:[0-5][0-9]` against a whole string. The
character classes contain no separators, so a match has exactly one or two
colons and the groups are recovered by splitting on `':'`. -/
def matchBase (t : List Char) : Bool :=
  match splitOnChar ':' t with
  | [m, s] => matchMM m && matchSS s
  | [h, m, s] => matchHH h && matchMM m && matchSS s
  | _ => false

/-- Function `validate_time_format` of `src/app/utils/time_utils.py`: full-string match
of `([0-9]{1,2}:)?[0-5]?[0-9]:[0-5][0-9](\.[0-9]{1,3})?`. A matching string
contains at most one `'.'`, introduced by the optional suffix, so the suffix
is recovered by splitting on `'.'`. -/
def validate_time_format (s : String) : Bool :=
  match splitOnChar '.' s.data with
  | [t] => matchBase t
  | [t, f] => matchBase t && decide (1 ≤ f.length) && decide (f.length ≤ 3) && f.all Char.isDigit
  | _ => false

/-- Membership in the language of the source regex
`([0-9]{1,2}:)?[0-5]?[0-9]:[0-5][0-9](\.[0-9]{1,3})?`, written out as the
existence of a decomposition of the string into the groups of the regex. -/
def matchesRegex (l : List Char) : Prop :=
  ∃ opt mm ss fr : List Char,
    l = opt ++ mm ++ ':' :: ss ++ fr ∧
    (opt = [] ∨ ∃ hh : List Char,
      (hh.length = 1 ∨ hh.length = 2) ∧ hh.all Char.isDigit = true ∧
        opt = hh ++ [':']) ∧
    ((∃ d, mm = [d] ∧ d.isDigit = true) ∨
      (∃ d e, mm = [d, e] ∧ isLowDigit d = true ∧ e.isDigit = true)) ∧
    (∃ d e, ss = [d, e] ∧ isLowDigit d = true ∧ e.isDigit = true) ∧
    (fr = [] ∨ ∃ ds : List Char,
      fr = '.' :: ds ∧ ds.all Char.isDigit = true ∧ 1 ≤ ds.length ∧
        ds.length ≤ 3)

end time_utils

/-- The canonical zero-padded 2-digit `HH:MM:SS.mmm` rendering of four time
fields: the family of strings the round-trip law quantifies over, and the
shape of every `seconds_to_hms` output on a nonnegative input. -/
def timeText (h m s ms : ℕ) : String :=
  String.mk (pad2 h ++ ':' :: pad2 m ++ ':' :: pad2 s ++ '.' :: pad3 ms)

namespace Main

/-- Function `seconds_to_hms` of `src/main.py` — a line-for-line duplicate of the
`time_utils` version, embedded separately. -/
def seconds_to_hms (q : ℚ) : String :=
  let hours : ℤ := ⌊q / 3600⌋
  let minutes : ℤ := ⌊(q - 3600 * (⌊q / 3600⌋ : ℚ)) / 60⌋
  let secs : ℚ := q - (3600 * hours + 60 * minutes)
  String.mk (intPad2 hours ++ ':' :: intPad2 minutes ++ ':' :: fmtSecs secs)

/-- Function `hms_to_seconds` of `src/main.py` — same branch structure as the
`time_utils` version (`if/elif/else` there, two early `return`s here),
embedded separately. -/
def hms_to_seconds (s : String) : Option ℚ :=
  match splitOnChar '.' s.data with
  | [t] => time_utils.timeFromParts t 0
  | [t, msStr] => (parseFrac msStr).bind (time_utils.timeFromParts t)
  | _ => none

/-- Function `validate_time_format` of `src/main.py` — duplicate of the `time_utils`
version, with the identical regex. -/
def validate_time_format (s : String) : Bool :=
  match splitOnChar '.' s.data with
  | [t] => time_utils.matchBase t
  | [t, f] => time_utils.matchBase t && decide (1 ≤ f.length) && decide (f.length ≤ 3) && f.all Char.isDigit
  | _ => false

/-- A diarized span as produced by `run_diarization`: a dict with keys
`speaker`, `start` and `end` (the field `stop` embeds the `end` key, which is
a reserved word in Lean). -/
structure Span where
  speaker : String
  start : ℚ
  stop : ℚ
deriving DecidableEq, Repr

/-- One entry of the `transcriptions` list built by `process_audio`:
a dict with keys `speaker`, `text`, `start`, `end`. -/
structure Segment where
  speaker : String
  text : String
  start : ℚ
  stop : ℚ
deriving DecidableEq, Repr

/-- The temporary audio files `process_audio` creates under its `temp_dir`:
`trimmed_audio.wav` and one `segment_{i}.wav` per loop index. -/
inductive ClipPath where
  | trimmed
  | seg (i : ℕ)
deriving DecidableEq, Repr

/-- Oracles for the external collaborators of one `process_audio` run.
`mainTrimOk`: whether `trim_audio(file_path, start_time, end_time,
trimmed_path)` returns a path (truthy) or a falsy value. `spans`: the result
of `run_diarization(trimmed_file)`. `segTrimOk i`: whether the sub-clip trim
for loop index `i` (whose window strings are `seconds_to_hms` of the span
bounds) returns a path. `transcribeRes i`: the Whisper transcription of
`segment_i.wav` — `ok` with the text returned by
`WhisperTranscriber.transcribe`, or `error` when the engine raises. -/
structure Env where
  mainTrimOk : Bool
  spans : List Span
  segTrimOk : ℕ → Bool
  transcribeRes : ℕ → Except Unit String

/-- The per-span loop of `process_audio`
(`for i, segment in enumerate(diarization_segments)`), threading the loop
index, the accumulated `transcriptions` list and the files currently on disk.
When the sub-clip trim fails the span is skipped. When it succeeds the
sub-clip exists on disk; on successful transcription the segment is appended
and the sub-clip removed (`os.remove(segment_file)`), while an exception from
`transcriber.transcribe` propagates out of the loop — the pair then carries
`.error` together with the files still on disk at that moment. After the
loop, `os.remove(trimmed_file)`. -/
def processLoop (env : Env) :
    ℕ → List Span → List Segment → List ClipPath →
    Except Unit (List Segment) × List ClipPath
  | _, [], acc, fs => (Except.ok acc, fs.erase ClipPath.trimmed)
  | i, sp :: rest, acc, fs =>
    if env.segTrimOk i then
      match env.transcribeRes i with
      | Except.ok text =>
        processLoop env (i + 1) rest
          (acc ++ [⟨sp.speaker, text, sp.start, sp.stop⟩])
          ((fs ++ [ClipPath.seg i]).erase (ClipPath.seg i))
      | Except.error e => (Except.error e, fs ++ [ClipPath.seg i])
    else processLoop env (i + 1) rest acc fs

/-- Function `process_audio` from `src/main.py`. Returns the value the Python function
returns (`.ok` with the transcription list, `.error` when an exception
escapes it) paired with the temporary clips still on disk when it finishes.
A falsy main trim result returns `[]` at once, with no clip ever created. -/
def process_audio (env : Env) : Except Unit (List Segment) × List ClipPath :=
  if env.mainTrimOk then processLoop env 0 env.spans [] [ClipPath.trimmed]
  else (Except.ok [], [])

/-- Observable outcome of `transcribe_audio_source`: an error banner
(`st.error(...)` followed by `return`, session state untouched) or the
results stored into the session state. -/
inductive RunOutcome where
  | errored (msg : String)
  | stored (transcriptions : List Segment) (transcript_text : String)
deriving DecidableEq, Repr

/-- Function `combine_transcriptions` from `src/main.py`: newline-joined
`"speaker: text"` lines. -/
def combine_transcriptions (ts : List Segment) : String :=
  String.intercalate "\n" (ts.map fun s => s.speaker ++ ": " ++ s.text)

/-- Function `transcribe_audio_source` from `src/main.py`. For a YouTube source a
failed download reports an error banner; otherwise `process_audio` runs, and
an *empty* transcription list — whatever its cause — is reported as the error
banner `"No transcriptions generated."`; a nonempty list is stored. An
exception escaping `process_audio` escapes here too (`.error`). -/
def transcribe_audio_source (isYoutube downloadOk : Bool) (env : Env) :
    Except Unit RunOutcome :=
  if isYoutube && !downloadOk then
    Except.ok (RunOutcome.errored "Failed to download audio from YouTube.")
  else
    match process_audio env with
    | (Except.error e, _) => Except.error e
    | (Except.ok ts, _) =>
      if ts.isEmpty then
        Except.ok (RunOutcome.errored "No transcriptions generated.")
      else Except.ok (RunOutcome.stored ts (combine_transcriptions ts))

end Main

namespace llm

/-- One chat message, as the dicts built by `answer_with_llm`. -/
structure Message where
  role : String
  content : String
deriving DecidableEq, Repr

/-- The `system_prompt` string of `answer_with_llm`
(`src/app/llm_services.py`). -/
def system_prompt : String :=
  "You are a helpful assistant. You carefully follow the user\x27s instructions and use any provided context. " ++
  "If the context does not contain enough information to fully answer, state so politely. " ++
  "Be concise and clear in your response."

/-- The `user_prompt` f-string of `answer_with_llm`, with `context` and
`question` interpolated (triple-quoted, so the indentation and surrounding
newlines are part of the text). -/
def user_prompt (context question : String) : String :=
  "\n    Context or conversation details:\n    " ++ context ++
  "\n\n    User Instruction / Question:\n    " ++ question ++
  "\n\n    Please follow the user\x27s instructions as best as you can, using the above context if relevant.\n" ++
  "    If the question cannot be answered from the context, respond accordingly.\n    "

/-- The `messages` list sent to the model. -/
def messages (context question : String) : List Message :=
  [⟨"system", system_prompt⟩, ⟨"user", user_prompt context question⟩]

/-- Function `answer_with_llm` from `src/app/llm_services.py`. The whole `try` body —
client construction, the chat-completion request and the
`response.choices[0].message.content` access — is the oracle `call`; it
either yields the raw content string or fails like a raised exception, in
which case the handler returns the sentinel. On success the content is
returned stripped (`.strip()`, modelled by `String.trim`). -/
def answer_with_llm (context question : String)
    (call : List Message → Except String String) : String :=
  match call (messages context question) with
  | Except.ok content => content.trim
  | Except.error _ => "LLM request failed."

end llm

namespace Main

/-- Three diarized spans used to instantiate the pipeline claims. -/
def spans3 : List Span :=
  [⟨"SPEAKER_00", 0, 1⟩, ⟨"SPEAKER_01", 1, 2⟩, ⟨"SPEAKER_00", 2, 3⟩]

/-- Run with 3 spans where the sub-clip trim of span 2 fails and every attempted
transcription succeeds. -/
def envTrimSkip : Env :=
  ⟨true, spans3, fun i => decide (i ≠ 1),
    fun i => Except.ok (if i = 0 then "hello" else if i = 1 then "mid" else "bye")⟩

/-- Run with 3 spans, all sub-clip trims succeeding, where the transcription
of span 2 (index 1) raises. -/
def envMidFail : Env :=
  ⟨true, spans3, fun _ => true,
    fun i => if i = 1 then Except.error () else Except.ok "ok"⟩

/-- Run with 2 spans where the second transcription raises. -/
def envTailFail : Env :=
  ⟨true, [⟨"SPEAKER_00", 0, 1⟩, ⟨"SPEAKER_01", 1, 2⟩], fun _ => true,
    fun i => if i = 0 then Except.ok "first" else Except.error ()⟩

/-- Run with one span whose transcription raises. -/
def envLeak : Env :=
  ⟨true, [⟨"SPEAKER_00", 0, 1⟩], fun _ => true, fun _ => Except.error ()⟩

/-- Run where the main trim succeeds and the diarizer returns zero spans. -/
def envZeroSpans : Env := ⟨true, [], fun _ => true, fun _ => Except.ok "unused"⟩

/-- Run where the trim of the main clip fails. -/
def envMainTrimFail : Env := ⟨false, spans3, fun _ => true, fun _ => Except.ok "unused"⟩

/-- Run with 2 spans, the first sub-clip trim failing, the second span fully
processed. -/
def envCleanup : Env :=
  ⟨true, [⟨"SPEAKER_00", 0, 1⟩, ⟨"SPEAKER_01", 1, 2⟩], fun i => decide (i = 1),
    fun _ => Except.ok "tail"⟩

/-- The text carried by a successful transcription result (used only where
success is already hypothesised). -/
def okText : Except Unit String → String
  | Except.ok t => t
  | Except.error _ => ""

/-- The segment `process_audio` builds for the span at loop index `i`. -/
def segOf (env : Env) (p : ℕ × Span) : Segment :=
  ⟨p.2.speaker, okText (env.transcribeRes p.1), p.2.start, p.2.stop⟩

lemma erase_trimmed_seg (i : ℕ) :
    ([ClipPath.trimmed, ClipPath.seg i] : List ClipPath).erase (ClipPath.seg i) =
      [ClipPath.trimmed] := by
  simp [List.erase_cons]

lemma erase_trimmed_self :
    ([ClipPath.trimmed] : List ClipPath).erase ClipPath.trimmed = [] := by
  simp [List.erase_cons]

/-- When every transcription attempted inside the loop succeeds, the loop
returns the accumulated list extended with one segment per span whose
sub-clip trim succeeded, in span order, and leaves only the trimmed clip
removed from an initially `[trimmed]` disk. -/
lemma processLoop_all_ok (env : Env) :
    ∀ (sps : List Span) (i : ℕ) (acc : List Segment),
      (∀ j, j < sps.length → env.segTrimOk (i + j) = true →
        (env.transcribeRes (i + j)).isOk = true) →
      processLoop env i sps acc [ClipPath.trimmed] =
        (Except.ok (acc ++
            (((sps.enumFrom i).filter fun p => env.segTrimOk p.1).map (segOf env))),
          []) := by
  intro sps
  induction sps with
  | nil =>
    intro i acc _
    simp [processLoop, erase_trimmed_self]
  | cons sp rest ih =>
    intro i acc h
    by_cases htrim : env.segTrimOk i = true
    · have hok : (env.transcribeRes i).isOk = true := by
        have := h 0 (by simp) (by simpa using htrim)
        simpa using this
      obtain ⟨t, ht⟩ : ∃ t, env.transcribeRes i = Except.ok t := by
        cases hres : env.transcribeRes i with
        | ok t => exact ⟨t, rfl⟩
        | error e => rw [hres] at hok; simp [Except.isOk, Except.toBool] at hok
      have hstep : processLoop env i (sp :: rest) acc [ClipPath.trimmed] =
          processLoop env (i + 1) rest (acc ++ [⟨sp.speaker, t, sp.start, sp.stop⟩])
            [ClipPath.trimmed] := by
        show (if env.segTrimOk i then _ else _) = _
        rw [htrim, if_pos rfl, ht]
        exact congrArg _ (erase_trimmed_seg i)
      rw [hstep, ih (i + 1) _ (fun j hj hs => by
        have := h (j + 1) (by simpa using Nat.succ_lt_succ hj)
        rw [show i + (j + 1) = i + 1 + j by omega] at this
        exact this hs)]
      have hseg : segOf env (i, sp) = ⟨sp.speaker, t, sp.start, sp.stop⟩ := by
        simp [segOf, okText, ht]
      rw [List.enumFrom_cons, List.filter_cons]
      simp [htrim, hseg]
    · have hstep : processLoop env i (sp :: rest) acc [ClipPath.trimmed] =
          processLoop env (i + 1) rest acc [ClipPath.trimmed] := by
        show (if env.segTrimOk i then _ else _) = _
        rw [Bool.of_not_eq_true htrim]
        rfl
      rw [hstep, ih (i + 1) acc (fun j hj hs => by
        have := h (j + 1) (by simpa using Nat.succ_lt_succ hj)
        rw [show i + (j + 1) = i + 1 + j by omega] at this
        exact this hs)]
      rw [List.enumFrom_cons, List.filter_cons]
      simp [htrim]

/-- When the transcription at absolute index `i` raises while every earlier
attempted one succeeds, the loop result is the propagated exception. -/
lemma processLoop_error (env : Env) :
    ∀ (sps : List Span) (k : ℕ) (acc : List Segment) (fs : List ClipPath) (i : ℕ),
      k ≤ i → i < k + sps.length →
      env.segTrimOk i = true → env.transcribeRes i = Except.error () →
      (∀ j, k ≤ j → j < i → env.segTrimOk j = true →
        (env.transcribeRes j).isOk = true) →
      (processLoop env k sps acc fs).1 = Except.error () := by
  intro sps
  induction sps with
  | nil =>
    intro k acc fs i hk hlt
    simp only [List.length_nil, Nat.add_zero] at hlt
    omega
  | cons sp rest ih =>
    intro k acc fs i hk hlt htrim hfail hprev
    rcases Nat.eq_or_lt_of_le hk with heq | hgt
    · subst heq
      show ((if env.segTrimOk k then _ else _ :
        Except Unit (List Segment) × List ClipPath)).1 = _
      rw [htrim, if_pos rfl, hfail]
    · by_cases hstep : env.segTrimOk k = true
      · have hok := hprev k le_rfl hgt hstep
        obtain ⟨t, ht⟩ : ∃ t, env.transcribeRes k = Except.ok t := by
          cases hres : env.transcribeRes k with
          | ok t => exact ⟨t, rfl⟩
          | error e => rw [hres] at hok; simp [Except.isOk, Except.toBool] at hok
        have : processLoop env k (sp :: rest) acc fs =
            processLoop env (k + 1) rest (acc ++ [⟨sp.speaker, t, sp.start, sp.stop⟩])
              ((fs ++ [ClipPath.seg k]).erase (ClipPath.seg k)) := by
          show (if env.segTrimOk k then _ else _) = _
          rw [hstep, if_pos rfl, ht]
        rw [this]
        exact ih (k + 1) _ _ i hgt (by simpa [Nat.add_right_comm] using hlt) htrim hfail
          (fun j hj hji hs => hprev j (by omega) hji hs)
      · have : processLoop env k (sp :: rest) acc fs =
            processLoop env (k + 1) rest acc fs := by
          show (if env.segTrimOk k then _ else _) = _
          rw [Bool.of_not_eq_true hstep]
          rfl
        rw [this]
        exact ih (k + 1) acc fs i hgt (by simpa [Nat.add_right_comm] using hlt) htrim hfail
          (fun j hj hji hs => hprev j (by omega) hji hs)

end Main

/-- C1: `process_audio` applies skip-and-continue to sub-clip trim failures
while preserving diarization order. For every environment in which the main
trim succeeds and every transcription that is attempted succeeds, the
returned transcript has exactly one segment per span whose sub-clip trim
succeeded, in the original span order, each carrying the speaker of the span,
bounds, and transcribed text. -/
theorem C1_process_audio_skip_and_order (env : Main.Env)
    (hmain : env.mainTrimOk = true)
    (htr : ∀ j, j < env.spans.length → env.segTrimOk j = true →
      (env.transcribeRes j).isOk = true) :
    (Main.process_audio env).1 =
      Except.ok ((env.spans.enum.filter fun p => env.segTrimOk p.1).map
        (Main.segOf env)) := by
  unfold Main.process_audio
  rw [hmain, if_pos rfl,
    Main.processLoop_all_ok env env.spans 0 [] (fun j hj => by simpa using htr j hj)]
  simp [List.enum]

/-- C1 witness: 3 spans, the sub-clip trim of span 2 fails, the result has exactly
the segments of spans 1 and 3, in order. -/
theorem C1_process_audio_skip_and_order_witness :
    (Main.process_audio Main.envTrimSkip).1 =
      Except.ok [⟨"SPEAKER_00", "hello", 0, 1⟩, ⟨"SPEAKER_00", "bye", 2, 3⟩] := by
  rw [C1_process_audio_skip_and_order Main.envTrimSkip rfl (by decide)]
  rfl

/-- C2 counterexample: in the concrete run `envMidFail` (3 spans, all trims
succeed, the transcription of span 2 raises), `process_audio` propagates the
exception: it returns no transcript at all, in particular not one containing
the segments of spans 1 and 3 as the claim asserts. -/
theorem C2_transcription_failure_cex :
    (Main.process_audio Main.envMidFail).1 = Except.error () ∧
    ∀ segs : List Main.Segment,
      (Main.process_audio Main.envMidFail).1 ≠ Except.ok segs := by
  refine ⟨rfl, fun segs h => ?_⟩
  rw [show (Main.process_audio Main.envMidFail).1 = Except.error () from rfl] at h
  exact Except.noConfusion h

/-- C2 amended: a per-span transcription failure is NOT recovered locally —
`transcriber.transcribe` is called with no exception handler, so when the
transcription of span `i` raises (all earlier attempted ones succeeding), the
exception propagates out of `process_audio` and the run aborts with no
transcript. Only sub-clip trim failures are skipped. -/
theorem C2_transcription_failure_aborts (env : Main.Env) (i : ℕ)
    (hmain : env.mainTrimOk = true)
    (hi : i < env.spans.length)
    (htrim : env.segTrimOk i = true)
    (hfail : env.transcribeRes i = Except.error ())
    (hprev : ∀ j, j < i → env.segTrimOk j = true →
      (env.transcribeRes j).isOk = true) :
    (Main.process_audio env).1 = Except.error () := by
  unfold Main.process_audio
  rw [hmain, if_pos rfl]
  exact Main.processLoop_error env env.spans 0 [] [Main.ClipPath.trimmed] i
    (Nat.zero_le i) (by simpa using hi) htrim hfail (fun j _ hji => hprev j hji)

/-- C2 amended, witness: 2 spans whose second transcription raises — the run
aborts with the propagated exception. -/
theorem C2_transcription_failure_aborts_witness :
    (Main.process_audio Main.envTailFail).1 = Except.error () :=
  C2_transcription_failure_aborts Main.envTailFail 1 rfl (by decide) rfl rfl
    (by decide)

/-- C3 counterexample: the zero-span outcome is NOT distinct from the failed
main trim, and the failed main trim is not run-fatal: both runs return the
identical value `([], no exception)`, and the caller
`transcribe_audio_source` reports the zero-span outcome as the error banner
`"No transcriptions generated."` rather than as a success. -/
theorem C3_empty_vs_trimfail_cex :
    Main.process_audio Main.envZeroSpans = (Except.ok [], []) ∧
    Main.process_audio Main.envMainTrimFail = (Except.ok [], []) ∧
    Main.process_audio Main.envZeroSpans = Main.process_audio Main.envMainTrimFail ∧
    Main.transcribe_audio_source false true Main.envZeroSpans =
      Except.ok (Main.RunOutcome.errored "No transcriptions generated.") :=
  ⟨rfl, rfl, rfl, rfl⟩

/-- C3 amended: when the diarizer returns zero spans for a successfully
trimmed clip, `process_audio` does return the empty transcript without
raising; but this outcome is not distinguishable from a failed trim of the
main clip, which returns the same empty transcript instead of being
run-fatal, and the caller `transcribe_audio_source` treats every empty result
as the error `"No transcriptions generated."`. -/
theorem C3_zero_spans_empty_but_conflated (env : Main.Env)
    (hmain : env.mainTrimOk = true) (hz : env.spans = []) :
    Main.process_audio env = (Except.ok [], []) ∧
    (∀ env₂ : Main.Env, env₂.mainTrimOk = false →
      Main.process_audio env₂ = (Except.ok [], [])) ∧
    Main.transcribe_audio_source false true env =
      Except.ok (Main.RunOutcome.errored "No transcriptions generated.") := by
  have h1 : Main.process_audio env = (Except.ok [], []) := by
    unfold Main.process_audio
    rw [hmain, if_pos rfl, hz]
    simp [Main.processLoop, Main.erase_trimmed_self]
  refine ⟨h1, fun env₂ h2 => ?_, ?_⟩
  · unfold Main.process_audio
    rw [h2]
    rfl
  · simp [Main.transcribe_audio_source, h1]

/-- C3 amended, witness: instantiation at the zero-span run. -/
theorem C3_zero_spans_empty_but_conflated_witness :
    Main.process_audio Main.envZeroSpans = (Except.ok [], []) ∧
    (∀ env₂ : Main.Env, env₂.mainTrimOk = false →
      Main.process_audio env₂ = (Except.ok [], [])) ∧
    Main.transcribe_audio_source false true Main.envZeroSpans =
      Except.ok (Main.RunOutcome.errored "No transcriptions generated.") :=
  C3_zero_spans_empty_but_conflated Main.envZeroSpans rfl rfl

/-- C4 counterexample: in the concrete run `envLeak` (one span, sub-clip trim
succeeds, its transcription raises), the run completes with BOTH the trimmed
main clip and the sub-clip of the span still on disk — the error path of a
transcription failure deletes nothing. -/
theorem C4_leak_on_transcription_failure_cex :
    (Main.process_audio Main.envLeak).2 =
      [Main.ClipPath.trimmed, Main.ClipPath.seg 0] ∧
    (Main.process_audio Main.envLeak).2 ≠ [] :=
  ⟨rfl, by decide⟩

/-- C4 amended: on every run in which no attempted transcription raises
(whatever the pattern of trim failures), all temporary clips created by
`process_audio` — the trimmed main clip and each per-span sub-clip — have
been deleted when the run completes; the sub-clip of each processed span is
removed within its own loop iteration. The unconditional-release part of the
original claim fails: a transcription exception skips both `os.remove`
calls. -/
theorem C4_cleanup_when_transcriptions_succeed (env : Main.Env)
    (htr : ∀ j, j < env.spans.length → env.segTrimOk j = true →
      (env.transcribeRes j).isOk = true) :
    (Main.process_audio env).2 = [] := by
  unfold Main.process_audio
  by_cases hmain : env.mainTrimOk = true
  · rw [hmain, if_pos rfl,
      Main.processLoop_all_ok env env.spans 0 [] (fun j hj => by simpa using htr j hj)]
  · rw [Bool.of_not_eq_true hmain]
    rfl

/-- C4 amended, witness: 2 spans, one trim failure and one processed span —
no temporary clip is left on disk. -/
theorem C4_cleanup_when_transcriptions_succeed_witness :
    (Main.process_audio Main.envCleanup).2 = [] :=
  C4_cleanup_when_transcriptions_succeed Main.envCleanup (by decide)

/-- C9: for every context and question, if the language-model call fails
then `answer_with_llm` returns exactly the sentinel `"LLM request failed."`
(the exception is swallowed by the handler — the function is total, so
nothing propagates past the boundary), and on success it returns the answer
text of the model (stripped, as the source does). -/
theorem C9_answer_with_llm_sentinel (context question : String)
    (call : List llm.Message → Except String String) :
    (∀ e, call (llm.messages context question) = Except.error e →
      llm.answer_with_llm context question call = "LLM request failed.") ∧
    (∀ t, call (llm.messages context question) = Except.ok t →
      llm.answer_with_llm context question call = t.trim) := by
  constructor
  · intro e he
    unfold llm.answer_with_llm
    rw [he]
  · intro t ht
    unfold llm.answer_with_llm
    rw [ht]

/-- C9 witness: a failing model call yields exactly the sentinel. -/
theorem C9_answer_with_llm_sentinel_witness :
    llm.answer_with_llm "SPEAKER_00: hi" "Summarize the discussion"
      (fun _ => Except.error "connection refused") = "LLM request failed." :=
  (C9_answer_with_llm_sentinel "SPEAKER_00: hi" "Summarize the discussion"
    (fun _ => Except.error "connection refused")).1 "connection refused" rfl

/-- C10: the time-code helpers duplicated in `main.py` are extensionally
equal to the identically named functions in `app/utils/time_utils.py`: on
every input each pair returns the same result (and fails on the same
inputs — `hms_to_seconds` returns `none` exactly when its twin does). -/
theorem C10_main_duplicates_agree (q : ℚ) (s : String) :
    Main.seconds_to_hms q = time_utils.seconds_to_hms q ∧
    Main.hms_to_seconds s = time_utils.hms_to_seconds s ∧
    Main.validate_time_format s = time_utils.validate_time_format s :=
  ⟨rfl, rfl, rfl⟩

lemma digitChar_isDigit : ∀ d, d < 10 → (digitChar d).isDigit = true := by decide

lemma digitChar_val : ∀ d, d < 10 → charVal (digitChar d) = d := by decide

lemma natDigitsAux_fuel_irrel :
    ∀ (fuel : ℕ) (fuel' n : ℕ), n < fuel → n < fuel' →
      natDigitsAux fuel n = natDigitsAux fuel' n := by
  intro fuel
  induction fuel with
  | zero => intro fuel' n h; omega
  | succ f ih =>
    intro fuel' n h h'
    cases fuel' with
    | zero => omega
    | succ f' =>
      show natDigitsAux (f + 1) n = natDigitsAux (f' + 1) n
      unfold natDigitsAux
      by_cases h10 : n < 10
      · rw [if_pos h10, if_pos h10]
      · rw [if_neg h10, if_neg h10,
          ih f' (n / 10) (by omega) (by omega)]

lemma natDigits_of_lt (n : ℕ) (h : n < 10) : natDigits n = [digitChar n] := by
  unfold natDigits natDigitsAux
  rw [if_pos h]

lemma natDigits_of_ge (n : ℕ) (h : 10 ≤ n) :
    natDigits n = natDigits (n / 10) ++ [digitChar (n % 10)] := by
  show natDigitsAux (n + 1) n = _
  unfold natDigitsAux
  rw [if_neg (by omega)]
  exact congrArg (· ++ _)
    (natDigitsAux_fuel_irrel n (n / 10 + 1) (n / 10) (by omega) (by omega))

lemma natDigits_ne_nil (n : ℕ) : natDigits n ≠ [] := by
  by_cases h : n < 10
  · rw [natDigits_of_lt n h]; simp
  · rw [natDigits_of_ge n (by omega)]; simp

lemma natDigits_all_digit (n : ℕ) : (natDigits n).all Char.isDigit = true := by
  induction n using Nat.strong_induction_on with
  | _ n ih =>
    by_cases h : n < 10
    · rw [natDigits_of_lt n h]
      simp [digitChar_isDigit n h]
    · rw [natDigits_of_ge n (by omega), List.all_append]
      simp [ih (n / 10) (by omega),
        digitChar_isDigit (n % 10) (Nat.mod_lt n (by omega))]

lemma foldl_natDigits (n : ℕ) :
    ∀ a : ℕ, List.foldl (fun a c => 10 * a + charVal c) a (natDigits n) =
      a * 10 ^ (natDigits n).length + n := by
  induction n using Nat.strong_induction_on with
  | _ n ih =>
    intro a
    by_cases h : n < 10
    · rw [natDigits_of_lt n h]
      simp [digitChar_val n h]
      ring
    · rw [natDigits_of_ge n (by omega), List.foldl_append, List.length_append,
        ih (n / 10) (by omega) a]
      simp [digitChar_val (n % 10) (Nat.mod_lt n (by omega))]
      rw [pow_succ]
      have hdm : 10 * (n / 10) + n % 10 = n := by omega
      ring_nf
      omega

lemma parseVal_natDigits (n : ℕ) : parseVal (natDigits n) = n := by
  have := foldl_natDigits n 0
  simpa [parseVal] using this

lemma parseNat_natDigits (n : ℕ) : parseNat (natDigits n) = some n := by
  unfold parseNat
  rw [if_pos, parseVal_natDigits]
  rw [Bool.and_eq_true]
  exact ⟨by simp [List.isEmpty_iff, natDigits_ne_nil n], natDigits_all_digit n⟩

lemma pad2_all_digit (n : ℕ) : (pad2 n).all Char.isDigit = true := by
  unfold pad2
  by_cases h : n < 10
  · rw [if_pos h]
    simp [natDigits_all_digit n]
  · rw [if_neg h]
    exact natDigits_all_digit n

lemma pad3_all_digit (n : ℕ) : (pad3 n).all Char.isDigit = true := by
  unfold pad3
  by_cases h : n < 10
  · rw [if_pos h]
    simp [natDigits_all_digit n]
  · rw [if_neg h]
    by_cases h2 : n < 100
    · rw [if_pos h2]
      simp [natDigits_all_digit n]
    · rw [if_neg h2]
      exact natDigits_all_digit n

lemma parseVal_cons_zero (l : List Char) : parseVal ('0' :: l) = parseVal l := by
  unfold parseVal
  simp [charVal]

lemma parseNat_pad2 (n : ℕ) : parseNat (pad2 n) = some n := by
  unfold pad2
  by_cases h : n < 10
  · rw [if_pos h]
    unfold parseNat
    rw [if_pos]
    · rw [parseVal_cons_zero, parseVal_natDigits]
    · rw [Bool.and_eq_true]
      refine ⟨by simp, ?_⟩
      simp [natDigits_all_digit n]
  · rw [if_neg h]
    exact parseNat_natDigits n

lemma parseVal_pad3 (n : ℕ) : parseVal (pad3 n) = n := by
  unfold pad3
  by_cases h : n < 10
  · rw [if_pos h, parseVal_cons_zero, parseVal_cons_zero, parseVal_natDigits]
  · rw [if_neg h]
    by_cases h2 : n < 100
    · rw [if_pos h2, parseVal_cons_zero, parseVal_natDigits]
    · rw [if_neg h2, parseVal_natDigits]

lemma natDigits_length_of_lt (n : ℕ) (h : n < 10) : (natDigits n).length = 1 := by
  rw [natDigits_of_lt n h]
  rfl

lemma natDigits_length_two (n : ℕ) (h1 : 10 ≤ n) (h2 : n < 100) :
    (natDigits n).length = 2 := by
  rw [natDigits_of_ge n h1, List.length_append,
    natDigits_length_of_lt (n / 10) (by omega)]
  rfl

lemma natDigits_length_three (n : ℕ) (h1 : 100 ≤ n) (h2 : n < 1000) :
    (natDigits n).length = 3 := by
  rw [natDigits_of_ge n (by omega), List.length_append,
    natDigits_length_two (n / 10) (by omega) (by omega)]
  rfl

lemma pad3_length (n : ℕ) (h : n < 1000) : (pad3 n).length = 3 := by
  unfold pad3
  by_cases h1 : n < 10
  · rw [if_pos h1]
    simp [natDigits_length_of_lt n h1]
  · rw [if_neg h1]
    by_cases h2 : n < 100
    · rw [if_pos h2]
      simp [natDigits_length_two n (by omega) h2]
    · rw [if_neg h2]
      exact natDigits_length_three n (by omega) h

lemma parseFrac_pad3 (ms : ℕ) (h : ms ≤ 999) :
    parseFrac (pad3 ms) = some ((ms : ℚ) / 1000) := by
  unfold parseFrac
  rw [if_pos (pad3_all_digit ms), parseVal_pad3, pad3_length ms (by omega)]
  norm_num

lemma not_mem_of_all_digit {l : List Char} (h : l.all Char.isDigit = true)
    {c : Char} (hc : c.isDigit = false) : c ∉ l := by
  intro hm
  have := List.all_eq_true.mp h c hm
  rw [hc] at this
  exact Bool.noConfusion this

lemma splitOnChar_ne_nil (c : Char) : ∀ l : List Char, splitOnChar c l ≠ [] := by
  intro l
  induction l with
  | nil => simp [splitOnChar]
  | cons x xs ih =>
    unfold splitOnChar
    by_cases h : x = c
    · rw [if_pos h]; simp
    · rw [if_neg h]
      cases hs : splitOnChar c xs with
      | nil => exact absurd hs ih
      | cons y ys => simp

lemma splitOnChar_of_not_mem {c : Char} :
    ∀ {l : List Char}, c ∉ l → splitOnChar c l = [l] := by
  intro l
  induction l with
  | nil => intro _; rfl
  | cons x xs ih =>
    intro h
    have hx : ¬x = c := fun hx => h (hx ▸ List.mem_cons_self x xs)
    have hxs : c ∉ xs := fun hm => h (List.mem_cons_of_mem x hm)
    show (if x = c then _ else _) = _
    rw [if_neg hx, ih hxs]

lemma splitOnChar_append_cons {c : Char} :
    ∀ {xs : List Char} (ys : List Char), c ∉ xs →
      splitOnChar c (xs ++ c :: ys) = xs :: splitOnChar c ys := by
  intro xs
  induction xs with
  | nil =>
    intro ys _
    show (if c = c then _ else _) = _
    rw [if_pos rfl]
  | cons x xs' ih =>
    intro ys h
    have hx : ¬x = c := fun hx => h (hx ▸ List.mem_cons_self x xs')
    have hxs : c ∉ xs' := fun hm => h (List.mem_cons_of_mem x hm)
    show (if x = c then _ else _) = _
    rw [if_neg hx]
    simp only [List.append_eq]
    rw [ih ys hxs]

lemma roundHalfEven_intCast (z : ℤ) : roundHalfEven (z : ℚ) = z := by
  simp only [roundHalfEven, Int.floor_intCast]
  rw [if_pos (by norm_num)]

lemma roundHalfEven_nonneg (q : ℚ) (h : 0 ≤ q) : 0 ≤ roundHalfEven q := by
  have h0 : (0 : ℤ) ≤ ⌊q⌋ := Int.floor_nonneg.mpr h
  simp only [roundHalfEven]
  split_ifs <;> omega

lemma roundHalfEven_le_floor_add_one (q : ℚ) : roundHalfEven q ≤ ⌊q⌋ + 1 := by
  simp only [roundHalfEven]
  split_ifs <;> omega

lemma roundHalfEven_abs (q : ℚ) : |q - roundHalfEven q| ≤ 1 / 2 := by
  have h1 : ((⌊q⌋ : ℤ) : ℚ) ≤ q := Int.floor_le q
  have h2 : q < (⌊q⌋ : ℚ) + 1 := Int.lt_floor_add_one q
  simp only [roundHalfEven]
  split_ifs with ha hb hc
  · rw [abs_le]
    constructor <;> linarith
  · rw [abs_le]
    push_cast
    constructor <;> linarith
  · rw [abs_le]
    constructor <;> linarith
  · rw [abs_le]
    push_cast
    constructor <;> linarith

lemma intPad2_natCast (n : ℕ) : intPad2 (n : ℤ) = pad2 n := by
  unfold intPad2
  rw [if_neg (not_lt.mpr (Int.natCast_nonneg n)), Int.toNat_natCast]

lemma fmtSecs_split (s ms : ℕ) (hmsb : ms ≤ 999) :
    fmtSecs ((s : ℚ) + (ms : ℚ) / 1000) = pad2 s ++ '.' :: pad3 ms := by
  have harg : ((s : ℚ) + (ms : ℚ) / 1000) * 1000 = ((1000 * s + ms : ℕ) : ℤ) := by
    push_cast
    ring
  simp only [fmtSecs]
  rw [harg, roundHalfEven_intCast,
    if_neg (not_lt.mpr (Int.natCast_nonneg (1000 * s + ms))), Int.toNat_natCast]
  have hdiv : (1000 * s + ms) / 1000 = s := by omega
  have hmod : (1000 * s + ms) % 1000 = ms := by omega
  rw [hdiv, hmod]

lemma seconds_to_hms_fields (h m s ms : ℕ) (hm : m ≤ 59) (hs : s ≤ 59)
    (hmsb : ms ≤ 999) :
    time_utils.seconds_to_hms (((3600 * h + 60 * m + s : ℕ) : ℚ) + (ms : ℚ) / 1000) =
      timeText h m s ms := by
  set x : ℚ := ((3600 * h + 60 * m + s : ℕ) : ℚ) + (ms : ℚ) / 1000 with hx
  have hmq : (m : ℚ) ≤ 59 := by exact_mod_cast hm
  have hsq : (s : ℚ) ≤ 59 := by exact_mod_cast hs
  have hms0 : (0 : ℚ) ≤ (ms : ℚ) / 1000 := by positivity
  have hms1 : (ms : ℚ) / 1000 < 1 := by
    rw [div_lt_one (by norm_num : (0 : ℚ) < 1000)]
    exact_mod_cast Nat.lt_of_le_of_lt hmsb (by norm_num)
  have hf1 : ⌊x / 3600⌋ = (h : ℤ) := by
    rw [Int.floor_eq_iff]
    constructor
    · rw [le_div_iff (by norm_num : (0 : ℚ) < 3600)]
      push_cast [hx]
      nlinarith
    · rw [div_lt_iff (by norm_num : (0 : ℚ) < 3600)]
      push_cast [hx]
      nlinarith
  have hf2 : ⌊(x - 3600 * (((h : ℤ) : ℚ))) / 60⌋ = (m : ℤ) := by
    rw [Int.floor_eq_iff]
    constructor
    · rw [le_div_iff (by norm_num : (0 : ℚ) < 60)]
      push_cast [hx]
      nlinarith
    · rw [div_lt_iff (by norm_num : (0 : ℚ) < 60)]
      push_cast [hx]
      nlinarith
  have hsecs : x - (3600 * (((h : ℤ) : ℚ)) + 60 * (((m : ℤ) : ℚ))) =
      (s : ℚ) + (ms : ℚ) / 1000 := by
    push_cast [hx]
    ring
  simp only [time_utils.seconds_to_hms]
  rw [hf1, hf2, hsecs, fmtSecs_split s ms hmsb, intPad2_natCast, intPad2_natCast]
  unfold timeText
  simp

lemma hms_to_seconds_timeText (h m s ms : ℕ) (hmsb : ms ≤ 999) :
    time_utils.hms_to_seconds (timeText h m s ms) =
      some (((3600 * h + 60 * m + s : ℕ) : ℚ) + (ms : ℚ) / 1000) := by
  have hdotdig : ('.' : Char).isDigit = false := by decide
  have hcolondig : (':' : Char).isDigit = false := by decide
  have hbase : ('.' : Char) ∉ pad2 h ++ ':' :: (pad2 m ++ ':' :: pad2 s) := by
    intro hmem
    simp only [List.mem_append, List.mem_cons] at hmem
    rcases hmem with h1 | h1 | h1 | h1 | h1
    · exact not_mem_of_all_digit (pad2_all_digit h) hdotdig h1
    · exact absurd h1 (by decide)
    · exact not_mem_of_all_digit (pad2_all_digit m) hdotdig h1
    · exact absurd h1 (by decide)
    · exact not_mem_of_all_digit (pad2_all_digit s) hdotdig h1
  have hshape : pad2 h ++ ':' :: pad2 m ++ ':' :: pad2 s ++ '.' :: pad3 ms =
      (pad2 h ++ ':' :: (pad2 m ++ ':' :: pad2 s)) ++ '.' :: pad3 ms := by
    simp
  have hsplit1 : splitOnChar '.' (pad2 h ++ ':' :: pad2 m ++ ':' :: pad2 s ++ '.' :: pad3 ms) =
      [pad2 h ++ ':' :: (pad2 m ++ ':' :: pad2 s), pad3 ms] := by
    rw [hshape, splitOnChar_append_cons _ hbase,
      splitOnChar_of_not_mem (not_mem_of_all_digit (pad3_all_digit ms) hdotdig)]
  have hsplit2 : splitOnChar ':' (pad2 h ++ ':' :: (pad2 m ++ ':' :: pad2 s)) =
      [pad2 h, pad2 m, pad2 s] := by
    rw [splitOnChar_append_cons _
        (not_mem_of_all_digit (pad2_all_digit h) hcolondig),
      splitOnChar_append_cons _
        (not_mem_of_all_digit (pad2_all_digit m) hcolondig),
      splitOnChar_of_not_mem (not_mem_of_all_digit (pad2_all_digit s) hcolondig)]
  show (match splitOnChar '.' (timeText h m s ms).data with
    | [t] => time_utils.timeFromParts t 0
    | [t, msStr] => (parseFrac msStr).bind (time_utils.timeFromParts t)
    | _ => none) = _
  have hdata : (timeText h m s ms).data =
      pad2 h ++ ':' :: pad2 m ++ ':' :: pad2 s ++ '.' :: pad3 ms := rfl
  rw [hdata, hsplit1]
  show (parseFrac (pad3 ms)).bind
      (time_utils.timeFromParts (pad2 h ++ ':' :: (pad2 m ++ ':' :: pad2 s))) = _
  rw [parseFrac_pad3 ms hmsb]
  show time_utils.timeFromParts (pad2 h ++ ':' :: (pad2 m ++ ':' :: pad2 s))
      ((ms : ℚ) / 1000) = _
  unfold time_utils.timeFromParts
  rw [hsplit2]
  show (parseNat (pad2 h)).bind (fun hv => (parseNat (pad2 m)).bind fun mv =>
    (parseNat (pad2 s)).bind fun sv =>
      some (((3600 * hv + 60 * mv + sv : ℕ) : ℚ) + (ms : ℚ) / 1000)) = _
  rw [parseNat_pad2, parseNat_pad2, parseNat_pad2]
  rfl

lemma intPad2_of_nonneg (i : ℤ) (h : 0 ≤ i) : intPad2 i = pad2 i.toNat := by
  unfold intPad2
  rw [if_neg (not_lt.mpr h)]

/-- C5: the round-trip law. For every time string of the exact form
`HH:MM:SS.mmm` — zero-padded 2-digit hours, minutes and seconds, exactly
3 millisecond digits — `seconds_to_hms (hms_to_seconds s) = s`; and the law
is not guaranteed for other representations: `"5:00"` parses to `300` but
renders back as `"00:05:00.000"`, not `"5:00"`. -/
theorem C5_roundtrip (h m s ms : ℕ) (hh : h ≤ 99) (hm : m ≤ 59) (hs : s ≤ 59)
    (hmsb : ms ≤ 999) :
    (time_utils.hms_to_seconds (timeText h m s ms)).map time_utils.seconds_to_hms =
      some (timeText h m s ms) ∧
    time_utils.hms_to_seconds "5:00" = some 300 ∧
    time_utils.seconds_to_hms 300 ≠ "5:00" := by
  refine ⟨?_, ?_, ?_⟩
  · rw [hms_to_seconds_timeText h m s ms hmsb]
    exact congrArg some (seconds_to_hms_fields h m s ms hm hs hmsb)
  · rw [show time_utils.hms_to_seconds "5:00" = some (((60 * 5 + 0 : ℕ) : ℚ) + 0)
      from rfl]
    norm_num
  · have h300 : ((3600 * 0 + 60 * 5 + 0 : ℕ) : ℚ) + ((0 : ℕ) : ℚ) / 1000 = 300 := by
      norm_num
    have hr := seconds_to_hms_fields 0 5 0 0 (by norm_num) (by norm_num) (by norm_num)
    rw [h300] at hr
    rw [hr]
    decide

/-- C5 witness: instantiation at `"01:02:03.045"`. -/
theorem C5_roundtrip_witness :
    (time_utils.hms_to_seconds "01:02:03.045").map time_utils.seconds_to_hms =
      some "01:02:03.045" ∧
    time_utils.hms_to_seconds "5:00" = some 300 ∧
    time_utils.seconds_to_hms 300 ≠ "5:00" := by
  have h := C5_roundtrip 1 2 3 45 (by decide) (by decide) (by decide) (by decide)
  rwa [show timeText 1 2 3 45 = "01:02:03.045" from by decide] at h

/-- C6 counterexample: the fractional part is NOT truncated. At the exactly
representable input `15/16 = 0.9375` s, truncation to 3 digits would give
millisecond field `937` (`⌊0.9375 * 1000⌋ = 937`), but `seconds_to_hms`
renders `"00:00:00.938"` — the formatting rounds to nearest. -/
theorem C6_truncation_cex :
    time_utils.seconds_to_hms (15 / 16 : ℚ) = "00:00:00.938" ∧
    ⌊(15 / 16 : ℚ) * 1000⌋ = 937 := by
  constructor
  · have hf1 : ⌊(15 / 16 : ℚ) / 3600⌋ = (0 : ℤ) := by norm_num
    have hf2 : ⌊((15 / 16 : ℚ) - 3600 * (((0 : ℤ) : ℚ))) / 60⌋ = (0 : ℤ) := by
      push_cast
      norm_num
    have harg : ((15 / 16 : ℚ) - (3600 * (((0 : ℤ) : ℚ)) + 60 * (((0 : ℤ) : ℚ)))) * 1000 =
        1875 / 2 := by
      push_cast
      ring
    have hrhe : roundHalfEven (((15 / 16 : ℚ) -
        (3600 * (((0 : ℤ) : ℚ)) + 60 * (((0 : ℤ) : ℚ)))) * 1000) = 938 := by
      rw [harg]
      simp only [roundHalfEven]
      rw [show ⌊(1875 / 2 : ℚ)⌋ = (937 : ℤ) from by norm_num]
      rw [if_neg (by push_cast; norm_num), if_neg (by push_cast; norm_num),
        if_neg (by decide)]
      decide
    simp only [time_utils.seconds_to_hms]
    rw [hf1, hf2]
    simp only [fmtSecs]
    rw [hrhe]
    decide
  · norm_num

/-- C6 amended: for every nonnegative input, `seconds_to_hms` produces a
string of the `HH:MM:SS.mmm` shape — zero-padded 2-digit minutes and seconds
fields (seconds can reach `60` by round-up), unbounded-width zero-padded
hours, exactly 3 millisecond digits — whose denoted value is the input
rounded to the nearest millisecond (error at most half a millisecond, which
truncation would not guarantee). -/
theorem C6_render_shape (q : ℚ) (hq : 0 ≤ q) :
    ∃ h m s ms : ℕ, m ≤ 59 ∧ s ≤ 60 ∧ ms ≤ 999 ∧
      time_utils.seconds_to_hms q = timeText h m s ms ∧
      |q - (((3600 * h + 60 * m + s : ℕ) : ℚ) + (ms : ℚ) / 1000)| ≤ 1 / 2000 := by
  have hH0 : (0 : ℤ) ≤ ⌊q / 3600⌋ := Int.floor_nonneg.mpr (by positivity)
  have hq1 : ((⌊q / 3600⌋ : ℤ) : ℚ) * 3600 ≤ q := by
    have h1 : ((⌊q / 3600⌋ : ℤ) : ℚ) ≤ q / 3600 := Int.floor_le _
    rw [le_div_iff (by norm_num : (0 : ℚ) < 3600)] at h1
    exact h1
  have hq2 : q < (((⌊q / 3600⌋ : ℤ) : ℚ) + 1) * 3600 := by
    have h2 : q / 3600 < ((⌊q / 3600⌋ : ℤ) : ℚ) + 1 := Int.lt_floor_add_one _
    rw [div_lt_iff (by norm_num : (0 : ℚ) < 3600)] at h2
    exact h2
  set qm : ℚ := q - 3600 * ((⌊q / 3600⌋ : ℤ) : ℚ) with hqm
  have hqm0 : 0 ≤ qm := by rw [hqm]; linarith
  have hqm1 : qm < 3600 := by rw [hqm]; linarith
  have hM0 : (0 : ℤ) ≤ ⌊qm / 60⌋ := Int.floor_nonneg.mpr (by positivity)
  have hm1 : ((⌊qm / 60⌋ : ℤ) : ℚ) * 60 ≤ qm := by
    have h1 : ((⌊qm / 60⌋ : ℤ) : ℚ) ≤ qm / 60 := Int.floor_le _
    rw [le_div_iff (by norm_num : (0 : ℚ) < 60)] at h1
    exact h1
  have hm2 : qm < (((⌊qm / 60⌋ : ℤ) : ℚ) + 1) * 60 := by
    have h2 : qm / 60 < ((⌊qm / 60⌋ : ℤ) : ℚ) + 1 := Int.lt_floor_add_one _
    rw [div_lt_iff (by norm_num : (0 : ℚ) < 60)] at h2
    exact h2
  have hM59 : ⌊qm / 60⌋ ≤ 59 := by
    have : ⌊qm / 60⌋ < 60 := Int.floor_lt.mpr (by
      rw [div_lt_iff (by norm_num : (0 : ℚ) < 60)]
      push_cast
      linarith)
    omega
  set secs : ℚ := q - (3600 * ((⌊q / 3600⌋ : ℤ) : ℚ) + 60 * ((⌊qm / 60⌋ : ℤ) : ℚ))
    with hsecs
  have hsec0 : 0 ≤ secs := by rw [hsecs]; rw [hqm] at hm1; linarith
  have hsec1 : secs < 60 := by rw [hsecs]; rw [hqm] at hm2; linarith
  set r : ℤ := roundHalfEven (secs * 1000) with hr
  have hr0 : (0 : ℤ) ≤ r := roundHalfEven_nonneg _ (by positivity)
  have hrle : r ≤ 60000 := by
    have hfl : ⌊secs * 1000⌋ < 60000 := Int.floor_lt.mpr (by push_cast; nlinarith)
    have := roundHalfEven_le_floor_add_one (secs * 1000)
    rw [← hr] at this
    omega
  refine ⟨(⌊q / 3600⌋).toNat, (⌊qm / 60⌋).toNat, r.toNat / 1000, r.toNat % 1000,
    by omega, by omega, by omega, ?_, ?_⟩
  · simp only [time_utils.seconds_to_hms]
    rw [show (q - 3600 * ((⌊q / 3600⌋ : ℤ) : ℚ)) = qm from hqm.symm]
    rw [show (q - (3600 * ((⌊q / 3600⌋ : ℤ) : ℚ) + 60 * ((⌊qm / 60⌋ : ℤ) : ℚ))) = secs
      from hsecs.symm]
    simp only [fmtSecs]
    rw [← hr, if_neg (not_lt.mpr hr0),
      intPad2_of_nonneg _ hH0, intPad2_of_nonneg _ hM0]
    unfold timeText
    simp
  · have habs := roundHalfEven_abs (secs * 1000)
    rw [← hr] at habs
    have hkey : ((r.toNat / 1000 : ℕ) : ℚ) + ((r.toNat % 1000 : ℕ) : ℚ) / 1000 =
        ((r.toNat : ℕ) : ℚ) / 1000 := by
      have hdm : r.toNat / 1000 * 1000 + r.toNat % 1000 = r.toNat := by omega
      field_simp
      exact_mod_cast hdm
    have hcastH : (((⌊q / 3600⌋).toNat : ℕ) : ℚ) = ((⌊q / 3600⌋ : ℤ) : ℚ) := by
      exact_mod_cast Int.toNat_of_nonneg hH0
    have hcastM : (((⌊qm / 60⌋).toNat : ℕ) : ℚ) = ((⌊qm / 60⌋ : ℤ) : ℚ) := by
      exact_mod_cast Int.toNat_of_nonneg hM0
    have hcastR : ((r.toNat : ℕ) : ℚ) = (r : ℚ) := by
      exact_mod_cast Int.toNat_of_nonneg hr0
    have hval : ((3600 * (⌊q / 3600⌋).toNat + 60 * (⌊qm / 60⌋).toNat + r.toNat / 1000 : ℕ) : ℚ) +
        ((r.toNat % 1000 : ℕ) : ℚ) / 1000 =
        3600 * ((⌊q / 3600⌋ : ℤ) : ℚ) + 60 * ((⌊qm / 60⌋ : ℤ) : ℚ) + (r : ℚ) / 1000 := by
      push_cast
      push_cast at hkey hcastH hcastM hcastR
      rw [← hcastH, ← hcastM, ← hcastR, ← hkey]
      ring
    rw [hval]
    have hdiff : q - (3600 * ((⌊q / 3600⌋ : ℤ) : ℚ) + 60 * ((⌊qm / 60⌋ : ℤ) : ℚ) + (r : ℚ) / 1000) =
        (secs * 1000 - (r : ℚ)) / 1000 := by
      rw [hsecs]
      field_simp
      ring
    rw [hdiff, abs_div, abs_of_pos (by norm_num : (0 : ℚ) < 1000)]
    rw [div_le_iff (by norm_num : (0 : ℚ) < 1000)]
    calc |secs * 1000 - (r : ℚ)| ≤ 1 / 2 := habs
    _ ≤ 1 / 2000 * 1000 := by norm_num

/-- C6 amended, witness: instantiation at `q = 0`. -/
theorem C6_render_shape_witness :
    ∃ h m s ms : ℕ, m ≤ 59 ∧ s ≤ 60 ∧ ms ≤ 999 ∧
      time_utils.seconds_to_hms 0 = timeText h m s ms ∧
      |(0 : ℚ) - (((3600 * h + 60 * m + s : ℕ) : ℚ) + (ms : ℚ) / 1000)| ≤ 1 / 2000 :=
  C6_render_shape 0 (le_refl 0)

/-- C7 counterexample: the claim says `hms_to_seconds` fails whenever the
colon-separated component count is not 1–3, but on the 4-component input
`"1:2:3:4"` it does not fail: the `else` branch silently returns
`int(parts[0])`, here `1.0`. -/
theorem C7_four_components_cex : time_utils.hms_to_seconds "1:2:3:4" = some 1 := by
  rw [show time_utils.hms_to_seconds "1:2:3:4" = some (((1 : ℕ) : ℚ) + 0) from rfl]
  norm_num

/-- C7 amended: `hms_to_seconds` accepts `SS`, `MM:SS` and `HH:MM:SS` with an
optional `.mmm` suffix and returns the denoted seconds (`"90"` ↦ 90,
`"1:30"` ↦ 90, `"01:01:30.5"` ↦ 3690.5); but a component count of 4 (or
more) does NOT fail — for all-digit components the result is the first
value of the first component; failures (`ValueError`, modelled `none`) arise from
non-numeric parsed components or from more than one dot, as in `"ab"` and
`"1.2.3"`. -/
theorem C7_parser_accepts (p q r t : List Char)
    (hp : p ≠ []) (hpd : p.all Char.isDigit = true)
    (hqd : q.all Char.isDigit = true) (hrd : r.all Char.isDigit = true)
    (htd : t.all Char.isDigit = true) :
    time_utils.hms_to_seconds "90" = some 90 ∧
    time_utils.hms_to_seconds "1:30" = some 90 ∧
    time_utils.hms_to_seconds "01:01:30.5" = some (7381 / 2) ∧
    time_utils.hms_to_seconds
        (String.mk (p ++ ':' :: (q ++ ':' :: (r ++ ':' :: t)))) =
      some ((parseVal p : ℚ)) ∧
    time_utils.hms_to_seconds "ab" = none ∧
    time_utils.hms_to_seconds "1.2.3" = none := by
  have hdig : ('.' : Char).isDigit = false := by decide
  have hcold : (':' : Char).isDigit = false := by decide
  refine ⟨?_, ?_, ?_, ?_, rfl, rfl⟩
  · rw [show time_utils.hms_to_seconds "90" = some (((90 : ℕ) : ℚ) + 0) from rfl]
    norm_num
  · rw [show time_utils.hms_to_seconds "1:30" =
      some (((60 * 1 + 30 : ℕ) : ℚ) + 0) from rfl]
    norm_num
  · rw [show time_utils.hms_to_seconds "01:01:30.5" =
      some (((3600 * 1 + 60 * 1 + 30 : ℕ) : ℚ) + ((5 : ℕ) : ℚ) / 10 ^ 1) from rfl]
    norm_num
  · have hdot : ('.' : Char) ∉ p ++ ':' :: (q ++ ':' :: (r ++ ':' :: t)) := by
      intro hmem
      rcases List.mem_append.mp hmem with h1 | h1
      · exact not_mem_of_all_digit hpd hdig h1
      rcases List.mem_cons.mp h1 with h2 | h2
      · exact absurd h2 (by decide)
      rcases List.mem_append.mp h2 with h3 | h3
      · exact not_mem_of_all_digit hqd hdig h3
      rcases List.mem_cons.mp h3 with h4 | h4
      · exact absurd h4 (by decide)
      rcases List.mem_append.mp h4 with h5 | h5
      · exact not_mem_of_all_digit hrd hdig h5
      rcases List.mem_cons.mp h5 with h6 | h6
      · exact absurd h6 (by decide)
      exact not_mem_of_all_digit htd hdig h6
    have hsp1 : splitOnChar '.' (p ++ ':' :: (q ++ ':' :: (r ++ ':' :: t))) =
        [p ++ ':' :: (q ++ ':' :: (r ++ ':' :: t))] := splitOnChar_of_not_mem hdot
    have hsp2 : splitOnChar ':' (p ++ ':' :: (q ++ ':' :: (r ++ ':' :: t))) =
        [p, q, r, t] := by
      rw [splitOnChar_append_cons _ (not_mem_of_all_digit hpd hcold),
        splitOnChar_append_cons _ (not_mem_of_all_digit hqd hcold),
        splitOnChar_append_cons _ (not_mem_of_all_digit hrd hcold),
        splitOnChar_of_not_mem (not_mem_of_all_digit htd hcold)]
    have hpn : parseNat p = some (parseVal p) := by
      have hne : p.isEmpty = false := by
        cases p with
        | nil => exact absurd rfl hp
        | cons a as => rfl
      unfold parseNat
      rw [if_pos (by rw [Bool.and_eq_true, hne]; exact ⟨rfl, hpd⟩)]
    unfold time_utils.hms_to_seconds
    rw [show (String.mk (p ++ ':' :: (q ++ ':' :: (r ++ ':' :: t)))).data =
      p ++ ':' :: (q ++ ':' :: (r ++ ':' :: t)) from rfl, hsp1]
    show time_utils.timeFromParts (p ++ ':' :: (q ++ ':' :: (r ++ ':' :: t))) 0 = _
    unfold time_utils.timeFromParts
    rw [hsp2]
    show (parseNat p).map (fun pv => (pv : ℚ) + 0) = _
    rw [hpn]
    show some ((parseVal p : ℚ) + 0) = _
    rw [add_zero]

/-- C7 amended, witness: a 4-component all-digit string parses to its first
component. -/
theorem C7_parser_accepts_witness :
    time_utils.hms_to_seconds "90" = some 90 ∧
    time_utils.hms_to_seconds "1:30" = some 90 ∧
    time_utils.hms_to_seconds "01:01:30.5" = some (7381 / 2) ∧
    time_utils.hms_to_seconds "2:3:4:5" = some 2 ∧
    time_utils.hms_to_seconds "ab" = none ∧
    time_utils.hms_to_seconds "1.2.3" = none := by
  have h := C7_parser_accepts ['2'] ['3'] ['4'] ['5'] (by decide) (by decide)
    (by decide) (by decide) (by decide)
  rwa [show ((parseVal ['2'] : ℕ) : ℚ) = (2 : ℚ) from by
    rw [show parseVal ['2'] = 2 from by decide]; norm_num] at h

lemma mem_splitOnChar (c : Char) :
    ∀ (l : List Char) (p : List Char), p ∈ splitOnChar c l → c ∉ p := by
  intro l
  induction l with
  | nil =>
    intro p hp
    simp only [splitOnChar, List.mem_singleton] at hp
    subst hp
    simp
  | cons x xs ih =>
    intro p hp
    by_cases hx : x = c
    · rw [show splitOnChar c (x :: xs) = [] :: splitOnChar c xs from by
        show (if x = c then _ else _) = _
        rw [if_pos hx]] at hp
      rcases List.mem_cons.mp hp with h1 | h1
      · subst h1; simp
      · exact ih p h1
    · rcases hs : splitOnChar c xs with _ | ⟨y, ys⟩
      · exact absurd hs (splitOnChar_ne_nil c xs)
      · rw [show splitOnChar c (x :: xs) = (x :: y) :: ys from by
          show (if x = c then _ else _) = _
          rw [if_neg hx, hs]] at hp
        rcases List.mem_cons.mp hp with h1 | h1
        · subst h1
          intro hmem
          rcases List.mem_cons.mp hmem with h2 | h2
          · exact hx h2.symm
          · exact ih y (by rw [hs]; exact List.mem_cons_self y ys) h2
        · exact ih p (by rw [hs]; exact List.mem_cons_of_mem y h1)

lemma joinWith_splitOnChar (c : Char) : ∀ l, joinWith c (splitOnChar c l) = l := by
  intro l
  induction l with
  | nil => rfl
  | cons x xs ih =>
    by_cases hx : x = c
    · show joinWith c (if x = c then [] :: splitOnChar c xs else _) = x :: xs
      rw [if_pos hx, hx]
      rcases hs : splitOnChar c xs with _ | ⟨y, ys⟩
      · exact absurd hs (splitOnChar_ne_nil c xs)
      · rw [hs] at ih
        rw [show joinWith c ([] :: y :: ys) = c :: joinWith c (y :: ys) from rfl, ih]
    · show joinWith c (if x = c then _ else _) = x :: xs
      rw [if_neg hx]
      rcases hs : splitOnChar c xs with _ | ⟨y, ys⟩
      · exact absurd hs (splitOnChar_ne_nil c xs)
      · rw [hs] at ih
        cases ys with
        | nil =>
          rw [show joinWith c [x :: y] = x :: y from rfl]
          rw [show joinWith c [y] = y from rfl] at ih
          rw [ih]
        | cons z zs =>
          rw [show joinWith c ((x :: y) :: z :: zs) =
            (x :: y) ++ c :: joinWith c (z :: zs) from rfl]
          rw [show joinWith c (y :: z :: zs) = y ++ c :: joinWith c (z :: zs)
            from rfl] at ih
          rw [← ih]
          rfl

lemma splitOnChar_eq_one {c : Char} {l a : List Char}
    (h : splitOnChar c l = [a]) : l = a ∧ c ∉ a := by
  have hj := joinWith_splitOnChar c l
  rw [h] at hj
  exact ⟨hj.symm, mem_splitOnChar c l a (by rw [h]; simp)⟩

lemma splitOnChar_eq_two {c : Char} {l a b : List Char}
    (h : splitOnChar c l = [a, b]) : l = a ++ c :: b ∧ c ∉ a ∧ c ∉ b := by
  have hj := joinWith_splitOnChar c l
  rw [h] at hj
  exact ⟨hj.symm, mem_splitOnChar c l a (by rw [h]; simp),
    mem_splitOnChar c l b (by rw [h]; simp)⟩

lemma splitOnChar_eq_three {c : Char} {l a b d : List Char}
    (h : splitOnChar c l = [a, b, d]) :
    l = a ++ c :: (b ++ c :: d) ∧ c ∉ a ∧ c ∉ b ∧ c ∉ d := by
  have hj := joinWith_splitOnChar c l
  rw [h] at hj
  exact ⟨hj.symm, mem_splitOnChar c l a (by rw [h]; simp),
    mem_splitOnChar c l b (by rw [h]; simp),
    mem_splitOnChar c l d (by rw [h]; simp)⟩

lemma ne_sep_of_isDigit {c : Char} (h : c.isDigit = true) :
    c ≠ ':' ∧ c ≠ '.' := by
  constructor <;> intro he <;> subst he <;> exact absurd h (by decide)

lemma ne_sep_of_isLowDigit {c : Char} (h : time_utils.isLowDigit c = true) :
    c ≠ ':' ∧ c ≠ '.' := by
  constructor <;> intro he <;> subst he <;> exact absurd h (by decide)

/-- The group shapes witnessed by `matchMM`. -/
lemma matchMM_shape {mm : List Char} (h : time_utils.matchMM mm = true) :
    (∃ d, mm = [d] ∧ d.isDigit = true) ∨
      (∃ d e, mm = [d, e] ∧ time_utils.isLowDigit d = true ∧ e.isDigit = true) := by
  rcases mm with _ | ⟨d, _ | ⟨e, _ | ⟨f, rest⟩⟩⟩
  · exact absurd h (by decide)
  · exact Or.inl ⟨d, rfl, h⟩
  · rw [show time_utils.matchMM [d, e] = (time_utils.isLowDigit d && e.isDigit)
      from rfl, Bool.and_eq_true] at h
    exact Or.inr ⟨d, e, rfl, h.1, h.2⟩
  · rw [show time_utils.matchMM (d :: e :: f :: rest) = false from rfl] at h
    exact Bool.noConfusion h

lemma matchMM_of_shape {mm : List Char}
    (h : (∃ d, mm = [d] ∧ d.isDigit = true) ∨
      (∃ d e, mm = [d, e] ∧ time_utils.isLowDigit d = true ∧ e.isDigit = true)) :
    time_utils.matchMM mm = true := by
  rcases h with ⟨d, rfl, hd⟩ | ⟨d, e, rfl, hd, he⟩
  · exact hd
  · rw [show time_utils.matchMM [d, e] = (time_utils.isLowDigit d && e.isDigit)
      from rfl, Bool.and_eq_true]
    exact ⟨hd, he⟩

lemma matchSS_shape {ss : List Char} (h : time_utils.matchSS ss = true) :
    ∃ d e, ss = [d, e] ∧ time_utils.isLowDigit d = true ∧ e.isDigit = true := by
  rcases ss with _ | ⟨d, _ | ⟨e, _ | ⟨f, rest⟩⟩⟩
  · exact absurd h (by decide)
  · rw [show time_utils.matchSS [d] = false from rfl] at h
    exact Bool.noConfusion h
  · rw [show time_utils.matchSS [d, e] = (time_utils.isLowDigit d && e.isDigit)
      from rfl, Bool.and_eq_true] at h
    exact ⟨d, e, rfl, h.1, h.2⟩
  · rw [show time_utils.matchSS (d :: e :: f :: rest) = false from rfl] at h
    exact Bool.noConfusion h

lemma matchSS_of_shape {ss : List Char}
    (h : ∃ d e, ss = [d, e] ∧ time_utils.isLowDigit d = true ∧ e.isDigit = true) :
    time_utils.matchSS ss = true := by
  obtain ⟨d, e, rfl, hd, he⟩ := h
  rw [show time_utils.matchSS [d, e] = (time_utils.isLowDigit d && e.isDigit)
    from rfl, Bool.and_eq_true]
  exact ⟨hd, he⟩

lemma matchHH_iff {hh : List Char} :
    time_utils.matchHH hh = true ↔
      (hh.length = 1 ∨ hh.length = 2) ∧ hh.all Char.isDigit = true := by
  unfold time_utils.matchHH
  simp only [Bool.and_eq_true, Bool.or_eq_true, decide_eq_true_eq]

/-- No separator occurs in a group matched by `matchMM`. -/
lemma not_sep_mm {mm : List Char}
    (h : (∃ d, mm = [d] ∧ d.isDigit = true) ∨
      (∃ d e, mm = [d, e] ∧ time_utils.isLowDigit d = true ∧ e.isDigit = true)) :
    ':' ∉ mm ∧ '.' ∉ mm := by
  rcases h with ⟨d, rfl, hd⟩ | ⟨d, e, rfl, hd, he⟩
  · constructor <;> intro hm <;> rcases List.mem_singleton.mp hm with rfl
    · exact (ne_sep_of_isDigit hd).1 rfl
    · exact (ne_sep_of_isDigit hd).2 rfl
  · constructor <;> intro hm
    · rcases List.mem_cons.mp hm with h1 | h1
      · exact (ne_sep_of_isLowDigit hd).1 h1.symm
      · rcases List.mem_singleton.mp h1 with rfl
        exact (ne_sep_of_isDigit he).1 rfl
    · rcases List.mem_cons.mp hm with h1 | h1
      · exact (ne_sep_of_isLowDigit hd).2 h1.symm
      · rcases List.mem_singleton.mp h1 with rfl
        exact (ne_sep_of_isDigit he).2 rfl

lemma matchBase_sound {t : List Char} (h : time_utils.matchBase t = true) :
    ∃ opt mm ss : List Char,
      t = opt ++ mm ++ ':' :: ss ∧
      (opt = [] ∨ ∃ hh : List Char, (hh.length = 1 ∨ hh.length = 2) ∧
        hh.all Char.isDigit = true ∧ opt = hh ++ [':']) ∧
      ((∃ d, mm = [d] ∧ d.isDigit = true) ∨
        (∃ d e, mm = [d, e] ∧ time_utils.isLowDigit d = true ∧ e.isDigit = true)) ∧
      (∃ d e, ss = [d, e] ∧ time_utils.isLowDigit d = true ∧ e.isDigit = true) := by
  unfold time_utils.matchBase at h
  rcases hsc : splitOnChar ':' t with _ | ⟨a, _ | ⟨b, _ | ⟨c2, _ | ⟨d2, rest⟩⟩⟩⟩
  all_goals rw [hsc] at h
  · exact Bool.noConfusion h
  · exact Bool.noConfusion h
  · have h2 : (time_utils.matchMM a && time_utils.matchSS b) = true := h
    rw [Bool.and_eq_true] at h2
    obtain ⟨hlt, hna, hnb⟩ := splitOnChar_eq_two hsc
    exact ⟨[], a, b, hlt, Or.inl rfl, matchMM_shape h2.1, matchSS_shape h2.2⟩
  · have h2 : (time_utils.matchHH a && time_utils.matchMM b &&
      time_utils.matchSS c2) = true := h
    rw [Bool.and_eq_true, Bool.and_eq_true] at h2
    obtain ⟨hlt, hna, hnb, hnc⟩ := splitOnChar_eq_three hsc
    refine ⟨a ++ [':'], b, c2, ?_,
      Or.inr ⟨a, (matchHH_iff.mp h2.1.1).1, (matchHH_iff.mp h2.1.1).2, rfl⟩,
      matchMM_shape h2.1.2, matchSS_shape h2.2⟩
    rw [hlt]
    simp
  · exact Bool.noConfusion h

lemma matchBase_complete {opt mm ss : List Char}
    (hopt : opt = [] ∨ ∃ hh : List Char, (hh.length = 1 ∨ hh.length = 2) ∧
      hh.all Char.isDigit = true ∧ opt = hh ++ [':'])
    (hmm : (∃ d, mm = [d] ∧ d.isDigit = true) ∨
      (∃ d e, mm = [d, e] ∧ time_utils.isLowDigit d = true ∧ e.isDigit = true))
    (hss : ∃ d e, ss = [d, e] ∧ time_utils.isLowDigit d = true ∧ e.isDigit = true) :
    time_utils.matchBase (opt ++ mm ++ ':' :: ss) = true := by
  have hmmc : ':' ∉ mm := (not_sep_mm hmm).1
  have hssc : ':' ∉ ss := (not_sep_mm (Or.inr hss)).1
  have hsplit_tail : splitOnChar ':' (mm ++ ':' :: ss) = [mm, ss] := by
    rw [splitOnChar_append_cons _ hmmc, splitOnChar_of_not_mem hssc]
  rcases hopt with rfl | ⟨hh, hlen, hdig, rfl⟩
  · show time_utils.matchBase (mm ++ ':' :: ss) = true
    unfold time_utils.matchBase
    rw [hsplit_tail]
    show (time_utils.matchMM mm && time_utils.matchSS ss) = true
    rw [Bool.and_eq_true]
    exact ⟨matchMM_of_shape hmm, matchSS_of_shape hss⟩
  · have hhc : ':' ∉ hh := not_mem_of_all_digit hdig (by decide)
    have hshape : (hh ++ [':']) ++ mm ++ ':' :: ss =
        hh ++ ':' :: (mm ++ ':' :: ss) := by simp
    unfold time_utils.matchBase
    rw [hshape, splitOnChar_append_cons _ hhc, hsplit_tail]
    show (time_utils.matchHH hh && time_utils.matchMM mm &&
      time_utils.matchSS ss) = true
    rw [Bool.and_eq_true, Bool.and_eq_true]
    exact ⟨⟨matchHH_iff.mpr ⟨hlen, hdig⟩, matchMM_of_shape hmm⟩, matchSS_of_shape hss⟩

lemma validate_sound {s : String}
    (h : time_utils.validate_time_format s = true) :
    time_utils.matchesRegex s.data := by
  unfold time_utils.validate_time_format at h
  rcases hsp : splitOnChar '.' s.data with _ | ⟨t, _ | ⟨f, _ | ⟨g, rest⟩⟩⟩
  all_goals rw [hsp] at h
  · exact Bool.noConfusion h
  · obtain ⟨hlt, _⟩ := splitOnChar_eq_one hsp
    have h2 : time_utils.matchBase t = true := h
    obtain ⟨opt, mm, ss, hteq, hopt, hmm, hss⟩ := matchBase_sound h2
    refine ⟨opt, mm, ss, [], ?_, hopt, hmm, hss, Or.inl rfl⟩
    rw [hlt, hteq]
    simp
  · obtain ⟨hlt, hn1, hn2⟩ := splitOnChar_eq_two hsp
    have h2 : (time_utils.matchBase t && decide (1 ≤ f.length) &&
      decide (f.length ≤ 3) && f.all Char.isDigit) = true := h
    simp only [Bool.and_eq_true, decide_eq_true_eq] at h2
    obtain ⟨⟨⟨hb, hf1⟩, hf3⟩, hfd⟩ := h2
    obtain ⟨opt, mm, ss, hteq, hopt, hmm, hss⟩ := matchBase_sound hb
    refine ⟨opt, mm, ss, '.' :: f, ?_, hopt, hmm, hss,
      Or.inr ⟨f, rfl, hfd, hf1, hf3⟩⟩
    rw [hlt, hteq]
  · exact Bool.noConfusion h

lemma validate_complete {s : String} (h : time_utils.matchesRegex s.data) :
    time_utils.validate_time_format s = true := by
  obtain ⟨opt, mm, ss, fr, hl, hopt, hmm, hss, hfr⟩ := h
  have hmdot : '.' ∉ mm := (not_sep_mm hmm).2
  have hsdot : '.' ∉ ss := (not_sep_mm (Or.inr hss)).2
  have hodot : '.' ∉ opt := by
    rcases hopt with rfl | ⟨hh, _, hdig, rfl⟩
    · simp
    · intro hm
      rcases List.mem_append.mp hm with h1 | h1
      · exact not_mem_of_all_digit hdig (by decide) h1
      · exact absurd (List.mem_singleton.mp h1) (by decide)
  have hbdot : '.' ∉ opt ++ mm ++ ':' :: ss := by
    intro hm
    rcases List.mem_append.mp hm with h1 | h1
    · rcases List.mem_append.mp h1 with h2 | h2
      · exact hodot h2
      · exact hmdot h2
    · rcases List.mem_cons.mp h1 with h3 | h3
      · exact absurd h3 (by decide)
      · exact hsdot h3
  rcases hfr with rfl | ⟨ds, rfl, hdsd, hds1, hds3⟩
  · have hleq : s.data = opt ++ mm ++ ':' :: ss := by rw [hl]; simp
    unfold time_utils.validate_time_format
    rw [hleq, splitOnChar_of_not_mem hbdot]
    show time_utils.matchBase (opt ++ mm ++ ':' :: ss) = true
    exact matchBase_complete hopt hmm hss
  · have hdsdot : '.' ∉ ds := not_mem_of_all_digit hdsd (by decide)
    have hleq : s.data = (opt ++ mm ++ ':' :: ss) ++ '.' :: ds := by rw [hl]
    unfold time_utils.validate_time_format
    rw [hleq, splitOnChar_append_cons _ hbdot, splitOnChar_of_not_mem hdsdot]
    show (time_utils.matchBase (opt ++ mm ++ ':' :: ss) && decide (1 ≤ ds.length) &&
      decide (ds.length ≤ 3) && ds.all Char.isDigit) = true
    simp only [Bool.and_eq_true, decide_eq_true_eq]
    exact ⟨⟨⟨matchBase_complete hopt hmm hss, hds1⟩, hds3⟩, hdsd⟩

/-- C8: `validate_time_format` decides exactly the language of the source
regex `([0-9]{1,2}:)?[0-5]?[0-9]:[0-5][0-9](\.[0-9]{1,3})?` (`$` modelled as
end of string); in particular `"5:00"` ↦ true, `"5"` ↦ false, `"1:2:3"` ↦
false, `"0:60"` ↦ false, `"0:59"` ↦ true; and the validator is strictly
stricter than the parser: every nonempty bare-digit string is accepted by
`hms_to_seconds` and rejected by `validate_time_format`. -/
theorem C8_validator_regex :
    (∀ s : String, time_utils.validate_time_format s = true ↔
      time_utils.matchesRegex s.data) ∧
    (time_utils.validate_time_format "5:00" = true ∧
      time_utils.validate_time_format "5" = false ∧
      time_utils.validate_time_format "1:2:3" = false ∧
      time_utils.validate_time_format "0:60" = false ∧
      time_utils.validate_time_format "0:59" = true) ∧
    (∀ l : List Char, l ≠ [] → l.all Char.isDigit = true →
      (time_utils.hms_to_seconds (String.mk l)).isSome = true ∧
      time_utils.validate_time_format (String.mk l) = false) := by
  refine ⟨fun s => ⟨validate_sound, validate_complete⟩, by decide, ?_⟩
  intro l hne hdig
  have hdot : '.' ∉ l := not_mem_of_all_digit hdig (by decide)
  have hcol : ':' ∉ l := not_mem_of_all_digit hdig (by decide)
  have hsp1 : splitOnChar '.' l = [l] := splitOnChar_of_not_mem hdot
  have hsp2 : splitOnChar ':' l = [l] := splitOnChar_of_not_mem hcol
  have hdata : (String.mk l).data = l := rfl
  constructor
  · unfold time_utils.hms_to_seconds
    rw [hdata, hsp1]
    show (time_utils.timeFromParts l 0).isSome = true
    unfold time_utils.timeFromParts
    rw [hsp2]
    show ((parseNat l).map fun pv => (pv : ℚ) + 0).isSome = true
    have hpe : l.isEmpty = false := by
      cases l with
      | nil => exact absurd rfl hne
      | cons a as => rfl
    unfold parseNat
    rw [if_pos (by rw [Bool.and_eq_true, hpe]; exact ⟨rfl, hdig⟩)]
    rfl
  · unfold time_utils.validate_time_format
    rw [hdata, hsp1]
    show time_utils.matchBase l = false
    unfold time_utils.matchBase
    rw [hsp2]

/-- C8 witness: the bare-seconds string `"90"` is parsed by `hms_to_seconds`
but rejected by `validate_time_format`. -/
theorem C8_validator_regex_witness :
    (time_utils.hms_to_seconds "90").isSome = true ∧
    time_utils.validate_time_format "90" = false :=
  C8_validator_regex.2.2 ['9', '0'] (by decide) (by decide)

end YT
